import Mathlib

/-!
Shallow embedding of the NewtonFractal core (src/config.rs, src/fractal.rs):
the editable `Config` with its event-application protocol, the polynomial
packer and params encoder (`Params` builder over the `ParamsAbi` layout), and
the per-frame draw step of `FractalRenderer`.

Modelling conventions:
* `f32` components are modelled as rationals (`ℚ`).  Every concrete value the
  claims exercise is a small dyadic rational, and `f32` addition, subtraction
  and multiplication are exact on those values, so the rational model computes
  the same results bit-for-bit.
* `u32`/`usize` are modelled as `Nat`; no claim involves wrap-around.
* Rust panics (`assert!`, `Vec::remove` out of range) are modelled by `Option`:
  `none` is an abort.
* The explicit padding byte arrays of `ParamsAbi`/`RootAbi` are constant zero
  and never written after construction; they are omitted from the structures.
-/

/-- glam::Vec2: a pair of f32 components, modelled over ℚ. -/
structure Vec2 where
  x : ℚ
  y : ℚ
deriving DecidableEq, Repr

/-- glam::Vec4: four f32 components (RGBA colors), modelled over ℚ. -/
structure Vec4 where
  x : ℚ
  y : ℚ
  z : ℚ
  w : ℚ
deriving DecidableEq, Repr

/-- Vec2::ZERO. -/
def Vec2.zero : Vec2 := ⟨0, 0⟩

/-- Componentwise subtraction (`*a -= *b` on glam Vec2). -/
def Vec2.sub (a b : Vec2) : Vec2 := ⟨a.x - b.x, a.y - b.y⟩

/-- fractal.rs `complex_mul`: (a.x*b.x - a.y*b.y, a.x*b.y + a.y*b.x). -/
def complex_mul (a b : Vec2) : Vec2 :=
  ⟨a.x * b.x - a.y * b.y, a.x * b.y + a.y * b.x⟩

/-- fractal.rs `const MAX_ROOTS: usize = 10`. -/
def MAX_ROOTS : Nat := 10

/-- fractal.rs `const MAX_COEFFICIENTS: usize = 1 + MAX_ROOTS`. -/
def MAX_COEFFICIENTS : Nat := 1 + MAX_ROOTS

/-- config.rs `RootConfig`: an editable root with position and color. -/
structure RootConfig where
  position : Vec2
  color : Vec4
deriving DecidableEq, Repr

/-- config.rs `impl Default for RootConfig`: origin position, color (0,0,0,1). -/
def RootConfig.defaultRoot : RootConfig :=
  { position := Vec2.zero, color := ⟨0, 0, 0, 1⟩ }

/-- config.rs `CameraConfig`. -/
structure CameraConfig where
  position : Vec2
  zoom : ℚ
deriving DecidableEq, Repr

/-- config.rs `impl Default for CameraConfig`: origin, zoom 1. -/
def CameraConfig.defaultCamera : CameraConfig :=
  { position := Vec2.zero, zoom := 1 }

/-- config.rs `Config`: the editable application state. -/
structure Config where
  num_iterations : Nat
  roots : List RootConfig
  camera : CameraConfig
deriving DecidableEq, Repr

/-- config.rs `impl Default for Config`: 30 iterations and the two default
roots (0.5, 0) green and (-0.5, 0) blue. -/
def Config.defaultConfig : Config :=
  { num_iterations := 30
    roots :=
      [ { position := ⟨1/2, 0⟩, color := ⟨0, 3/4, 0, 1⟩ }
      , { position := ⟨-(1/2), 0⟩, color := ⟨0, 0, 1, 0⟩ } ]
    camera := CameraConfig.defaultCamera }

/-- config.rs `ConfigChangeEvent`. -/
inductive ConfigChangeEvent where
  | NumIterations (v : Nat)
  | AddRoot
  | RemoveRoot (index : Nat)
  | RootPosition (index : Nat) (position : Vec2)
  | RootColor (index : Nat) (color : Vec4)
  | CameraPosition (v : Vec2)
  | CameraZoom (v : ℚ)
deriving DecidableEq, Repr

/-- In-place update of a list element, modelling `Vec::get_mut(index)` followed
by a field assignment: out-of-range indices leave the list unchanged, exactly
as `get_mut` returning `None` does. -/
def modifyAt (f : α → α) : Nat → List α → List α
  | _, [] => []
  | 0, a :: as => f a :: as
  | n + 1, a :: as => a :: modifyAt f n as

/-- config.rs `Config::apply`.  `Vec::remove(index)` panics when
`index >= len`, modelled as `none`; `AddRoot` pushes a default root with no
capacity check; `RootPosition`/`RootColor` use `get_mut`, a silent no-op when
the index is out of range. -/
def Config.apply (c : Config) : ConfigChangeEvent → Option Config
  | .NumIterations v => some { c with num_iterations := v }
  | .AddRoot => some { c with roots := c.roots ++ [RootConfig.defaultRoot] }
  | .RemoveRoot index =>
      if index < c.roots.length then
        some { c with roots := c.roots.eraseIdx index }
      else
        none
  | .RootPosition index position =>
      some { c with roots := modifyAt (fun r => { r with position := position }) index c.roots }
  | .RootColor index color =>
      some { c with roots := modifyAt (fun r => { r with color := color }) index c.roots }
  | .CameraPosition v => some { c with camera := { c.camera with position := v } }
  | .CameraZoom v => some { c with camera := { c.camera with zoom := v } }

/-- fractal.rs `Root`: input to the packer/encoder. -/
structure Root where
  position : Vec2
  color : Vec4
deriving DecidableEq, Repr

/-- fractal.rs `RootAbi` (shader-side layout of one root slot; the constant
all-zero padding bytes are omitted). -/
structure RootAbi where
  color : Vec4
  position : Vec2
deriving DecidableEq, Repr

/-- The all-zero root slot that `Params::default` fills the ABI array with. -/
def RootAbi.zeroSlot : RootAbi := { color := ⟨0, 0, 0, 0⟩, position := Vec2.zero }

/-- fractal.rs `ParamsAbi` (the fixed-layout uniform buffer contents; the
constant all-zero padding byte arrays are omitted).  `roots` always has length
`MAX_ROOTS` and `coefficients` length `MAX_COEFFICIENTS`. -/
structure ParamsAbi where
  num_iterations : Nat
  viewport_min : Vec2
  viewport_max : Vec2
  num_roots : Nat
  roots : List RootAbi
  coefficients : List Vec2
deriving DecidableEq, Repr

/-- fractal.rs `Params`: builder wrapper around the ABI struct. -/
structure Params where
  abi : ParamsAbi
deriving DecidableEq, Repr

/-- fractal.rs `impl Default for Params`: 10 iterations, viewport corners
(-1, 1) and (1, -1), zero roots, all root slots and coefficients zeroed. -/
def Params.defaultParams : Params :=
  { abi :=
    { num_iterations := 10
      viewport_min := ⟨-1, 1⟩
      viewport_max := ⟨1, -1⟩
      num_roots := 0
      roots := List.replicate MAX_ROOTS RootAbi.zeroSlot
      coefficients := List.replicate MAX_COEFFICIENTS Vec2.zero } }

/-- fractal.rs `Params::num_iterations` builder. -/
def Params.numIterations (self : Params) (n : Nat) : Params :=
  { abi := { self.abi with num_iterations := n } }

/-- fractal.rs `Params::viewport` builder. -/
def Params.viewport (self : Params) (top_left bottom_right : Vec2) : Params :=
  { abi := { self.abi with viewport_min := top_left, viewport_max := bottom_right } }

/-- `self.abi.roots.iter_mut().zip(roots)`: overwrite the position and color of
the first `roots.length` slots, leaving the remaining slots untouched. -/
def writeRoots : List RootAbi → List Root → List RootAbi
  | slots, [] => slots
  | [], _ => []
  | s :: slots, r :: rs =>
      { s with position := r.position, color := r.color } :: writeRoots slots rs

/-- `self.abi.coefficients.iter_mut().zip(p)`: overwrite the leading slots with
the computed coefficients, leaving any remaining slots untouched. -/
def writeCoefs : List Vec2 → List Vec2 → List Vec2
  | slots, [] => slots
  | [], _ => []
  | _ :: slots, c :: cs => c :: writeCoefs slots cs

/-- One iteration of the coefficient loop in `Params::roots` for a single root:
clone `p` into `q`, shift `p` up one degree slot (top element discarded, slot 0
becomes zero), multiply every term of `q` by the root position, and subtract
elementwise. -/
def packStep (p : List Vec2) (root : Root) : List Vec2 :=
  let q := p.map (fun term => complex_mul term root.position)
  let shifted := Vec2.zero :: p.dropLast
  List.zipWith Vec2.sub shifted q

/-- The coefficient computation of `Params::roots`: start from the fixed-size
array `[1, 0, ..., 0]` of `MAX_COEFFICIENTS` slots and fold `packStep` over the
roots in input order. -/
def packCoefficients (roots : List Root) : List Vec2 :=
  roots.foldl packStep (⟨1, 0⟩ :: List.replicate MAX_ROOTS Vec2.zero)

/-- fractal.rs `Params::roots` builder: asserts `roots.len() < MAX_ROOTS`
(abort modelled as `none`), records the root count, writes the leading root
slots, computes the monic coefficients and writes them into the ABI array. -/
def Params.roots (self : Params) (roots : List Root) : Option Params :=
  if roots.length < MAX_ROOTS then
    some { abi :=
      { self.abi with
        num_roots := roots.length
        roots := writeRoots self.abi.roots roots
        coefficients := writeCoefs self.abi.coefficients (packCoefficients roots) } }
  else
    none

/-- The state of fractal.rs `FractalRenderer` that the claims concern: the
contents of the GPU-visible `params_buffer` (the pipeline, layout and bind
group carry no mutable data). -/
structure FractalRenderer where
  params_buffer : Params
deriving DecidableEq, Repr

/-- The draw call issued by `FractalRenderer::draw`: the params bound through
the bind group, the vertex range `0..6` and the instance range `0..1`. -/
structure DrawCall where
  bound_params : Params
  vertex_range : Nat × Nat
  instance_range : Nat × Nat
deriving DecidableEq, Repr

/-- fractal.rs `FractalRenderer::draw` (lines 104-121): begins a render pass,
sets the pipeline, binds the construction-time bind group (which wraps
`params_buffer` in its entirety) and draws vertices `0..6`, instances `0..1`.
It takes no `Config`, writes no buffer and mutates no state: the returned pair
is the unchanged renderer and the issued draw call. -/
def FractalRenderer.draw (self : FractalRenderer) : FractalRenderer × DrawCall :=
  (self, { bound_params := self.params_buffer, vertex_range := (0, 6), instance_range := (0, 1) })

/-- The params buffer contents created by `FractalRenderer::new`: the builder
chain `Params::default().roots(&[...])` over three hard-coded roots at radius
0.5 and angles 0, 120, 240 degrees.  The three `from_polar` positions are
parameters because cos/sin of 120 and 240 degrees are irrational; the colors
are the constant products `Vec4::new(..) * 0.8`. -/
def FractalRenderer.newParams (p0 p1 p2 : Vec2) : Option Params :=
  Params.defaultParams.roots
    [ { position := p0, color := ⟨0, 4/5, 4/5, 4/5⟩ }
    , { position := p1, color := ⟨4/5, 0, 4/5, 4/5⟩ }
    , { position := p2, color := ⟨4/5, 4/5, 0, 4/5⟩ } ]

/-- The two roots of `Config::default`, repackaged as packer input (position
and color carried over unchanged). -/
def defaultPackInput : List Root :=
  Config.defaultConfig.roots.map (fun r => { position := r.position, color := r.color })

/-- A `Config` holding nine default roots: a state satisfying the documented
invariant `roots.length < MAX_ROOTS` from which `AddRoot` escapes it. -/
def config9 : Config :=
  { num_iterations := 30
    roots := List.replicate 9 RootConfig.defaultRoot
    camera := CameraConfig.defaultCamera }

/-- The shape invariant of the running coefficient vector in `Params::roots`
after `k` roots have been folded in: some `k` low-order coefficients, then the
leading coefficient `(1, 0)`, then zeros filling the fixed capacity. -/
def monicShape (k : Nat) (v : List Vec2) : Prop :=
  ∃ cs : List Vec2, cs.length = k ∧
    v = cs ++ ⟨1, 0⟩ :: List.replicate (MAX_ROOTS - k) Vec2.zero

/-! ### Helper lemmas about `modifyAt` and list writes -/

theorem modifyAt_length (f : α → α) : ∀ (n : Nat) (l : List α),
    (modifyAt f n l).length = l.length
  | n, [] => by cases n <;> rfl
  | 0, _ :: _ => rfl
  | n + 1, _ :: as => by simp [modifyAt, modifyAt_length f n as]

theorem modifyAt_of_le (f : α → α) : ∀ (n : Nat) (l : List α),
    l.length ≤ n → modifyAt f n l = l
  | n, [], _ => by cases n <;> rfl
  | 0, a :: as, h => by simp at h
  | n + 1, a :: as, h => by
    simp only [List.length_cons, Nat.add_le_add_iff_right] at h
    simp [modifyAt, modifyAt_of_le f n as h]

theorem modifyAt_getElem_ne (f : α → α) : ∀ (n j : Nat) (l : List α),
    j ≠ n → (modifyAt f n l)[j]? = l[j]?
  | n, j, [], _ => by cases n <;> simp [modifyAt]
  | 0, 0, a :: as, h => absurd rfl h
  | 0, j + 1, a :: as, _ => by simp [modifyAt]
  | n + 1, 0, a :: as, _ => by simp [modifyAt]
  | n + 1, j + 1, a :: as, h => by
    have hj : j ≠ n := fun hc => h (by rw [hc])
    simp [modifyAt, modifyAt_getElem_ne f n j as hj]

theorem modifyAt_getElem_eq (f : α → α) : ∀ (n : Nat) (l : List α),
    n < l.length → (modifyAt f n l)[n]? = l[n]?.map f
  | _, [], h => by simp at h
  | 0, a :: as, _ => by simp [modifyAt]
  | n + 1, a :: as, h => by
    simp only [List.length_cons, Nat.add_lt_add_iff_right] at h
    simp [modifyAt, modifyAt_getElem_eq f n as h]

theorem writeRoots_spec : ∀ (rs : List Root) (slots : List RootAbi),
    rs.length ≤ slots.length →
    writeRoots slots rs
      = rs.map (fun r => { color := r.color, position := r.position }) ++ slots.drop rs.length
  | [], slots, _ => by simp [writeRoots]
  | r :: rs, [], h => by simp at h
  | r :: rs, s :: slots, h => by
    simp only [List.length_cons, Nat.add_le_add_iff_right] at h
    simp [writeRoots, writeRoots_spec rs slots h]

theorem writeCoefs_all : ∀ (slots cs : List Vec2),
    slots.length = cs.length → writeCoefs slots cs = cs
  | [], [], _ => rfl
  | [], c :: cs, h => by simp at h
  | s :: slots, [], h => by simp at h
  | s :: slots, c :: cs, h => by
    simp only [List.length_cons, Nat.add_right_cancel_iff] at h
    simp [writeCoefs, writeCoefs_all slots cs h]

theorem complex_mul_zero_left (b : Vec2) : complex_mul Vec2.zero b = Vec2.zero := by
  simp [complex_mul, Vec2.zero]

theorem Vec2.sub_self_zero : Vec2.sub Vec2.zero Vec2.zero = Vec2.zero := by
  simp [Vec2.sub, Vec2.zero]

theorem Vec2.one_sub_zero : Vec2.sub ⟨1, 0⟩ Vec2.zero = ⟨1, 0⟩ := by
  simp [Vec2.sub, Vec2.zero]

theorem monicShape_length {k : Nat} {v : List Vec2} (hk : k ≤ MAX_ROOTS)
    (h : monicShape k v) : v.length = MAX_COEFFICIENTS := by
  obtain ⟨cs, hlen, rfl⟩ := h
  simp only [List.length_append, List.length_cons, List.length_replicate, hlen]
  simp only [MAX_ROOTS, MAX_COEFFICIENTS] at *
  omega

theorem packStep_shape {k : Nat} {v : List Vec2} (r : Root) (hk : k < MAX_ROOTS)
    (h : monicShape k v) : monicShape (k + 1) (packStep v r) := by
  obtain ⟨cs, hlen, rfl⟩ := h
  have hm : MAX_ROOTS - k = (MAX_ROOTS - (k + 1)) + 1 := by
    simp only [MAX_ROOTS] at *; omega
  refine ⟨List.zipWith Vec2.sub (Vec2.zero :: cs)
      (cs.map (fun term => complex_mul term r.position) ++ [complex_mul ⟨1, 0⟩ r.position]),
    ?_, ?_⟩
  · simp [hlen]
  · unfold packStep
    have hdrop :
        (cs ++ ⟨1, 0⟩ :: List.replicate (MAX_ROOTS - k) Vec2.zero).dropLast
          = cs ++ ⟨1, 0⟩ :: List.replicate (MAX_ROOTS - (k + 1)) Vec2.zero := by
      rw [hm, List.replicate_succ']
      rw [show cs ++ ⟨1, 0⟩ :: (List.replicate (MAX_ROOTS - (k + 1)) Vec2.zero ++ [Vec2.zero])
            = (cs ++ ⟨1, 0⟩ :: List.replicate (MAX_ROOTS - (k + 1)) Vec2.zero) ++ [Vec2.zero]
          by simp]
      exact List.dropLast_concat
    have hmap :
        (cs ++ ⟨1, 0⟩ :: List.replicate (MAX_ROOTS - k) Vec2.zero).map
            (fun term => complex_mul term r.position)
          = (cs.map (fun term => complex_mul term r.position)
              ++ [complex_mul ⟨1, 0⟩ r.position])
            ++ Vec2.zero :: List.replicate (MAX_ROOTS - (k + 1)) Vec2.zero := by
      simp [List.map_replicate, complex_mul_zero_left, hm, List.replicate_succ]
    rw [hdrop, hmap]
    rw [show Vec2.zero :: (cs ++ ⟨1, 0⟩ :: List.replicate (MAX_ROOTS - (k + 1)) Vec2.zero)
          = (Vec2.zero :: cs) ++ ⟨1, 0⟩ :: List.replicate (MAX_ROOTS - (k + 1)) Vec2.zero
        by simp]
    rw [List.zipWith_append _ _ _ _ _ (by simp)]
    congr 1
    simp only [List.zipWith_cons_cons, Vec2.one_sub_zero]
    congr 1
    have : ∀ n : Nat, List.zipWith Vec2.sub (List.replicate n Vec2.zero)
        (List.replicate n Vec2.zero) = List.replicate n Vec2.zero := by
      intro n
      rw [List.zipWith_replicate, Vec2.sub_self_zero]
      simp
    exact this _

theorem foldl_packStep_shape : ∀ (rs : List Root) (v : List Vec2) (k : Nat),
    k + rs.length ≤ MAX_ROOTS → monicShape k v →
    monicShape (k + rs.length) (List.foldl packStep v rs)
  | [], v, k, _, h => by simpa using h
  | r :: rs, v, k, hbound, h => by
    simp only [List.length_cons] at hbound
    have hk : k < MAX_ROOTS := by omega
    have := foldl_packStep_shape rs (packStep v r) (k + 1) (by omega) (packStep_shape r hk h)
    simpa [List.foldl_cons, Nat.add_comm, Nat.add_assoc, Nat.add_left_comm] using this

theorem packCoefficients_shape (rs : List Root) (h : rs.length ≤ MAX_ROOTS) :
    monicShape rs.length (packCoefficients rs) := by
  have h0 : monicShape 0 (⟨1, 0⟩ :: List.replicate MAX_ROOTS Vec2.zero) :=
    ⟨[], rfl, by simp⟩
  simpa using foldl_packStep_shape rs _ 0 (by omega) h0

/-! ### Claim theorems: event application (C2, C8, C9) -/

/-- C2 counterexample: a `Config` with nine roots satisfies
`roots.length < MAX_ROOTS`, yet `AddRoot` applies without aborting and yields
ten roots, violating the invariant — `Config::apply` pushes with no capacity
check, so the claimed preservation fails. -/
theorem addRoot_breaks_roots_bound_at_nine :
    config9.roots.length < MAX_ROOTS ∧
    (config9.apply ConfigChangeEvent.AddRoot).map (fun c => c.roots.length) = some 10 ∧
    ¬ (10 < MAX_ROOTS) := by
  refine ⟨by decide, rfl, by decide⟩

/-- C2 (amended): for every `Config` with `roots.length < MAX_ROOTS` and every
event whose application does not abort, the invariant is preserved provided the
event is not `AddRoot`, or the stronger bound `roots.length + 1 < MAX_ROOTS`
holds; `AddRoot` from `MAX_ROOTS - 1` roots breaks the invariant. -/
theorem apply_preserves_roots_bound (c c' : Config) (e : ConfigChangeEvent)
    (hinv : c.roots.length < MAX_ROOTS)
    (hsafe : e ≠ ConfigChangeEvent.AddRoot ∨ c.roots.length + 1 < MAX_ROOTS)
    (happ : c.apply e = some c') :
    c'.roots.length < MAX_ROOTS := by
  cases e with
  | NumIterations v =>
    simp only [Config.apply, Option.some.injEq] at happ
    subst happ; simpa using hinv
  | AddRoot =>
    rcases hsafe with hne | hlt
    · exact absurd rfl hne
    · simp only [Config.apply, Option.some.injEq] at happ
      subst happ; simpa using hlt
  | RemoveRoot i =>
    simp only [Config.apply] at happ
    split at happ
    · simp only [Option.some.injEq] at happ
      subst happ
      simp only [List.length_eraseIdx, MAX_ROOTS] at *
      split <;> omega
    · exact absurd happ (by simp)
  | RootPosition i p =>
    simp only [Config.apply, Option.some.injEq] at happ
    subst happ; simpa [modifyAt_length] using hinv
  | RootColor i col =>
    simp only [Config.apply, Option.some.injEq] at happ
    subst happ; simpa [modifyAt_length] using hinv
  | CameraPosition v =>
    simp only [Config.apply, Option.some.injEq] at happ
    subst happ; simpa using hinv
  | CameraZoom v =>
    simp only [Config.apply, Option.some.injEq] at happ
    subst happ; simpa using hinv

/-- Witness for the amended C2 theorem: applying `AddRoot` to the two-root
default `Config` yields three roots, still below the cap. -/
theorem apply_preserves_roots_bound_witness :
    ({ Config.defaultConfig with
        roots := Config.defaultConfig.roots ++ [RootConfig.defaultRoot] } : Config).roots.length
      < MAX_ROOTS :=
  apply_preserves_roots_bound Config.defaultConfig _ ConfigChangeEvent.AddRoot
    (by decide) (Or.inr (by decide)) rfl

/-- C8: applying `RootPosition` or `RootColor` with an out-of-range index
leaves the `Config` completely unchanged (a silent no-op), while `RemoveRoot`
with an out-of-range index aborts (`Vec::remove` panics). -/
theorem oob_position_color_noop_remove_fatal (c : Config) (i : Nat) (p : Vec2) (col : Vec4)
    (h : c.roots.length ≤ i) :
    c.apply (ConfigChangeEvent.RootPosition i p) = some c ∧
    c.apply (ConfigChangeEvent.RootColor i col) = some c ∧
    c.apply (ConfigChangeEvent.RemoveRoot i) = none := by
  refine ⟨?_, ?_, ?_⟩
  · simp [Config.apply, modifyAt_of_le _ _ _ h]
  · simp [Config.apply, modifyAt_of_le _ _ _ h]
  · simp only [Config.apply, if_neg (by omega : ¬ i < c.roots.length)]

/-- Witness for C8 at the default two-root `Config` and index 5. -/
theorem oob_position_color_noop_remove_fatal_witness :
    Config.defaultConfig.apply (ConfigChangeEvent.RootPosition 5 ⟨2, 3⟩)
        = some Config.defaultConfig ∧
    Config.defaultConfig.apply (ConfigChangeEvent.RootColor 5 ⟨1, 1, 1, 1⟩)
        = some Config.defaultConfig ∧
    Config.defaultConfig.apply (ConfigChangeEvent.RemoveRoot 5) = none :=
  oob_position_color_noop_remove_fatal Config.defaultConfig 5 ⟨2, 3⟩ ⟨1, 1, 1, 1⟩ (by decide)

/-- C9: applying `RootPosition k p` at a valid index `k` sets exactly
`roots[k].position` to `p`: the iteration count and camera are unchanged,
`roots[k].color` is unchanged, and every root at an index other than `k` is
unchanged. -/
theorem rootPosition_updates_only_that_position (c : Config) (k j : Nat) (p : Vec2)
    (hk : k < c.roots.length) (hj : j ≠ k) :
    (c.apply (ConfigChangeEvent.RootPosition k p)).map
        (fun d => (d.num_iterations, d.camera,
          d.roots[k]?.map RootConfig.position, d.roots[k]?.map RootConfig.color))
      = some (c.num_iterations, c.camera, some p, c.roots[k]?.map RootConfig.color) ∧
    (c.apply (ConfigChangeEvent.RootPosition k p)).map (fun d => d.roots[j]?)
      = some c.roots[j]? := by
  obtain ⟨r, hr⟩ : ∃ r, c.roots[k]? = some r := ⟨_, List.getElem?_eq_getElem hk⟩
  constructor
  · simp [Config.apply, modifyAt_getElem_eq _ k c.roots hk, hr]
  · simp [Config.apply, modifyAt_getElem_ne _ k j c.roots hj]

/-- Witness for C9 at the default `Config`, valid index 0, other index 1. -/
theorem rootPosition_updates_only_that_position_witness :
    ((Config.defaultConfig.apply (ConfigChangeEvent.RootPosition 0 ⟨2, 3⟩)).map
        (fun d => (d.num_iterations, d.camera,
          d.roots[0]?.map RootConfig.position, d.roots[0]?.map RootConfig.color))
      = some (Config.defaultConfig.num_iterations, Config.defaultConfig.camera,
          some ⟨2, 3⟩, Config.defaultConfig.roots[0]?.map RootConfig.color)) ∧
    (Config.defaultConfig.apply (ConfigChangeEvent.RootPosition 0 ⟨2, 3⟩)).map
        (fun d => d.roots[1]?) = some Config.defaultConfig.roots[1]? :=
  rootPosition_updates_only_that_position Config.defaultConfig 0 1 ⟨2, 3⟩ (by decide) (by decide)

/-! ### Claim theorems: polynomial packer and params encoder (C3-C7, C10) -/

/-- C3: packing the two default roots (0.5, 0) and (-0.5, 0) through
`Params::roots` yields exactly coefficients c0 = (-0.25, 0), c1 = (0, 0),
c2 = (1, 0); every arithmetic operation involved is exact in f32, so the
rational computation matches the float one bit-for-bit. -/
theorem default_roots_pack_to_x_sq_minus_quarter :
    (Params.defaultParams.roots defaultPackInput).map (fun p => p.abi.coefficients.take 3)
      = some [⟨-(1/4), 0⟩, ⟨0, 0⟩, ⟨1, 0⟩] := by
  norm_num [defaultPackInput, Config.defaultConfig, Params.defaultParams, Params.roots,
    MAX_ROOTS, MAX_COEFFICIENTS, packCoefficients, packStep, complex_mul, Vec2.sub, Vec2.zero,
    writeCoefs, CameraConfig.defaultCamera, List.replicate, Vec2.mk.injEq]

/-- C4: for every root list of length N < MAX_ROOTS, the packed coefficient
vector's entry at index N (the leading coefficient) is exactly (1, 0),
independent of the root values. -/
theorem leading_coefficient_is_one (rs : List Root) (h : rs.length < MAX_ROOTS) :
    (Params.defaultParams.roots rs).map (fun p => p.abi.coefficients[rs.length]?)
      = some (some ⟨1, 0⟩) := by
  obtain ⟨cs, hlen, hshape⟩ := packCoefficients_shape rs (le_of_lt h)
  have hplen : (packCoefficients rs).length = MAX_COEFFICIENTS :=
    monicShape_length (le_of_lt h) ⟨cs, hlen, hshape⟩
  have hco : writeCoefs (List.replicate MAX_COEFFICIENTS Vec2.zero) (packCoefficients rs)
      = packCoefficients rs := writeCoefs_all _ _ (by simp [hplen])
  simp only [Params.defaultParams, Params.roots, if_pos h, Option.map_some',
    Option.some.injEq]
  rw [hco, hshape]
  rw [List.getElem?_append_right (by omega : cs.length ≤ rs.length)]
  simp [hlen]

/-- Witness for C4: a single arbitrary root, leading coefficient at index 1. -/
theorem leading_coefficient_is_one_witness :
    (Params.defaultParams.roots [{ position := ⟨2, 3⟩, color := ⟨1, 0, 0, 1⟩ }]).map
        (fun p => p.abi.coefficients[1]?) = some (some ⟨1, 0⟩) :=
  leading_coefficient_is_one [{ position := ⟨2, 3⟩, color := ⟨1, 0, 0, 1⟩ }] (by decide)

/-- C5: for every root list of length N < MAX_ROOTS, every packed coefficient
slot at an index strictly greater than N is (0, 0) (the `MAX_ROOTS - N` slots
after index N are all zero), and in the zero-root case the coefficient vector
is exactly [(1,0), (0,0), ..., (0,0)]. -/
theorem coefficients_beyond_degree_are_zero (rs : List Root) (h : rs.length < MAX_ROOTS) :
    (Params.defaultParams.roots rs).map (fun p => p.abi.coefficients.drop (rs.length + 1))
      = some (List.replicate (MAX_ROOTS - rs.length) Vec2.zero) ∧
    (Params.defaultParams.roots []).map (fun p => p.abi.coefficients)
      = some (⟨1, 0⟩ :: List.replicate MAX_ROOTS Vec2.zero) := by
  constructor
  · obtain ⟨cs, hlen, hshape⟩ := packCoefficients_shape rs (le_of_lt h)
    have hplen : (packCoefficients rs).length = MAX_COEFFICIENTS :=
      monicShape_length (le_of_lt h) ⟨cs, hlen, hshape⟩
    have hco : writeCoefs (List.replicate MAX_COEFFICIENTS Vec2.zero) (packCoefficients rs)
        = packCoefficients rs := writeCoefs_all _ _ (by simp [hplen])
    simp only [Params.defaultParams, Params.roots, if_pos h, Option.map_some',
      Option.some.injEq]
    rw [hco, hshape]
    have hsplit : cs ++ ⟨1, 0⟩ :: List.replicate (MAX_ROOTS - rs.length) Vec2.zero
        = (cs ++ [⟨1, 0⟩]) ++ List.replicate (MAX_ROOTS - rs.length) Vec2.zero := by simp
    have hlen2 : rs.length + 1 = (cs ++ [(⟨1, 0⟩ : Vec2)]).length := by simp [hlen]
    rw [hsplit, hlen2, List.drop_left]
  · simp [Params.defaultParams, Params.roots, MAX_ROOTS, MAX_COEFFICIENTS,
      packCoefficients, writeCoefs, List.replicate]

/-- Witness for C5: one arbitrary root; slots 2..10 are all zero, and the
zero-root vector is the constant polynomial 1. -/
theorem coefficients_beyond_degree_are_zero_witness :
    (Params.defaultParams.roots [{ position := ⟨2, 3⟩, color := ⟨0, 1, 0, 1⟩ }]).map
        (fun p => p.abi.coefficients.drop 2) = some (List.replicate 9 Vec2.zero) ∧
    (Params.defaultParams.roots []).map (fun p => p.abi.coefficients)
      = some (⟨1, 0⟩ :: List.replicate MAX_ROOTS Vec2.zero) :=
  coefficients_beyond_degree_are_zero [{ position := ⟨2, 3⟩, color := ⟨0, 1, 0, 1⟩ }] (by decide)

/-- C6: `Params::roots` with MAX_ROOTS or more roots hits the assertion and
aborts; with fewer than MAX_ROOTS roots the assertion is unreachable and
packing completes. -/
theorem too_many_roots_aborts_otherwise_completes (p : Params) (rs : List Root) :
    (MAX_ROOTS ≤ rs.length → p.roots rs = none) ∧
    (rs.length < MAX_ROOTS → (p.roots rs).isSome = true) := by
  constructor
  · intro h
    simp only [Params.roots, if_neg (by omega : ¬ rs.length < MAX_ROOTS)]
  · intro h
    simp [Params.roots, if_pos h]

/-- Witness for C6: ten identical roots abort; the empty list completes. -/
theorem too_many_roots_aborts_otherwise_completes_witness :
    Params.defaultParams.roots
        (List.replicate 10 { position := Vec2.zero, color := ⟨0, 0, 0, 1⟩ }) = none ∧
    (Params.defaultParams.roots []).isSome = true :=
  ⟨(too_many_roots_aborts_otherwise_completes Params.defaultParams _).1 (by decide),
   (too_many_roots_aborts_otherwise_completes Params.defaultParams []).2 (by decide)⟩

/-- C7: for every root list accepted by the encoder, the encoded viewport
bounds are the fixed constants top-left (-1, 1) and bottom-right (1, -1) set by
`Params::default`; no code path passes the configured camera position or zoom
into the encoder (`Params::viewport` is never called and `Config::camera` is
never read by fractal.rs), so the encoded viewport is independent of them. -/
theorem encoded_viewport_is_fixed_constants (rs : List Root) (h : rs.length < MAX_ROOTS) :
    (Params.defaultParams.roots rs).map (fun p => (p.abi.viewport_min, p.abi.viewport_max))
      = some (⟨-1, 1⟩, ⟨1, -1⟩) := by
  simp [Params.roots, if_pos h, Params.defaultParams]

/-- Witness for C7 at the empty root list. -/
theorem encoded_viewport_is_fixed_constants_witness :
    (Params.defaultParams.roots []).map (fun p => (p.abi.viewport_min, p.abi.viewport_max))
      = some (⟨-1, 1⟩, ⟨1, -1⟩) :=
  encoded_viewport_is_fixed_constants [] (by decide)

/-- C10: starting from `Params::default` (all ten ABI root slots zero),
`Params::roots` with N roots sets `num_roots` to N, writes the N roots into
slots 0..N-1 (color then position, per the ABI layout), and leaves the
remaining `MAX_ROOTS - N` slots all-zero. -/
theorem root_slots_beyond_count_stay_zero (rs : List Root) (h : rs.length < MAX_ROOTS) :
    (Params.defaultParams.roots rs).map
        (fun p => (p.abi.num_roots, p.abi.roots.take rs.length, p.abi.roots.drop rs.length))
      = some (rs.length,
          rs.map (fun r => { color := r.color, position := r.position }),
          List.replicate (MAX_ROOTS - rs.length) RootAbi.zeroSlot) := by
  have hle : rs.length ≤ (List.replicate MAX_ROOTS RootAbi.zeroSlot).length := by
    simp only [List.length_replicate]; omega
  simp only [Params.defaultParams, Params.roots, if_pos h, Option.map_some',
    Option.some.injEq, writeRoots_spec rs _ hle]
  have hmlen : (rs.map (fun r => ({ color := r.color, position := r.position } : RootAbi))).length
      = rs.length := by simp
  have ht : ((rs.map (fun r => ({ color := r.color, position := r.position } : RootAbi)))
        ++ (List.replicate MAX_ROOTS RootAbi.zeroSlot).drop rs.length).take rs.length
      = rs.map (fun r => ({ color := r.color, position := r.position } : RootAbi)) := by
    rw [← hmlen, List.take_left]
  have hd : ((rs.map (fun r => ({ color := r.color, position := r.position } : RootAbi)))
        ++ (List.replicate MAX_ROOTS RootAbi.zeroSlot).drop rs.length).drop rs.length
      = (List.replicate MAX_ROOTS RootAbi.zeroSlot).drop rs.length := by
    rw [← hmlen, List.drop_left]
  rw [ht, hd, List.drop_replicate]

/-- Witness for C10: one arbitrary root written to slot 0, nine zero slots. -/
theorem root_slots_beyond_count_stay_zero_witness :
    (Params.defaultParams.roots [{ position := ⟨2, 3⟩, color := ⟨1, 0, 0, 1⟩ }]).map
        (fun p => (p.abi.num_roots, p.abi.roots.take 1, p.abi.roots.drop 1))
      = some (1, [{ color := ⟨1, 0, 0, 1⟩, position := ⟨2, 3⟩ }],
          List.replicate 9 RootAbi.zeroSlot) :=
  root_slots_beyond_count_stay_zero [{ position := ⟨2, 3⟩, color := ⟨1, 0, 0, 1⟩ }] (by decide)

/-! ### Claim theorem: the per-frame draw step (C1) -/

/-- C1 (code divergence): `FractalRenderer::draw` takes no `Config`, performs
no re-encode and no upload; it returns the renderer unchanged and binds the
construction-time buffer wholesale.  That buffer holds the encoding of the
three hard-coded roots of `FractalRenderer::new` (`num_roots = 3`) while the
live default `Config` has two roots, so the bytes bound for a frame are not
the encoding of the current `Config`.  (main.rs even calls
`draw(&mut encoder, &frame_view, &self.config)` with a `Config` argument the
signature in fractal.rs does not accept.) -/
theorem frame_draw_binds_stale_construction_buffer :
    (∀ r : FractalRenderer, r.draw
        = (r, { bound_params := r.params_buffer
                vertex_range := (0, 6)
                instance_range := (0, 1) })) ∧
    (∀ p0 p1 p2 : Vec2,
      (FractalRenderer.newParams p0 p1 p2).map
          (fun buf => ((FractalRenderer.mk buf).draw.1,
            (FractalRenderer.mk buf).draw.2.bound_params.abi.num_roots))
        = (FractalRenderer.newParams p0 p1 p2).map (fun buf => (FractalRenderer.mk buf, 3))) ∧
    Config.defaultConfig.roots.length = 2 := by
  exact ⟨fun r => rfl, fun p0 p1 p2 => rfl, rfl⟩
